import Mathlib

/-!
Shallow embedding of `src/tools/ardubenchmark/ardubenchmark.c`, an optical
tachometer firmware: a DC-bias moving-average tracker, a hysteresis edge
detector, the main loop's period/timeout logic, and the serial frame encoder
with its single-frame-in-flight backpressure policy.

Machine integers are modelled as `Nat` with explicit `% 2^w` at the points
where the C code converts or wraps: `uint8_t` parameters take their value
`% 256`, `uint16_t` quantities wrap `% 65536`, the `uint32_t` running sum
wraps `% 4294967296`.
-/

set_option maxRecDepth 4000

namespace Ardubenchmark

/-- Header byte constant `SERIAL_FRAME_HEADER` (0xFA). -/
def SERIAL_FRAME_HEADER : Nat := 0xFA

/-- Frame size constant `SERIAL_FRAME_SIZE` = 1 + 1 + 2 + 2 + 2 = 8. -/
def SERIAL_FRAME_SIZE : Nat := 1 + 1 + 2 + 2 + 2

/-- The `struct serial_tx_frame`: 8 data bytes plus the drain cursor
`next_index` (a `uint8_t`). -/
structure SerialTxFrame where
  data : List Nat
  next_index : Nat
  deriving Repr, DecidableEq

/-- State after `serial_init`: the global struct is zero-initialised
(static storage) and `serial_init` sets `next_index = SERIAL_FRAME_SIZE`. -/
def serialInitFrame : SerialTxFrame :=
  { data := List.replicate SERIAL_FRAME_SIZE 0, next_index := SERIAL_FRAME_SIZE }

/-- The six payload bytes written by the three little-endian 2-byte
`memcpy` calls in `serial_send`: low byte then high byte of each
`uint16_t` argument. -/
def serial_frame_payload (tach voltage current : Nat) : List Nat :=
  [tach % 65536 % 256, tach % 65536 / 256,
   voltage % 65536 % 256, voltage % 65536 / 256,
   current % 65536 % 256, current % 65536 / 256]

/-- The checksum loop of `serial_send`: `data[1] = 0;` then
`data[1] += data[i]` for `i = 2 .. 7`, each addition wrapping in
`uint8_t`. -/
def serial_checksum (payload : List Nat) : Nat :=
  payload.foldl (fun a b => (a + b) % 256) 0

/-- `serial_send(tach, voltage, current)`: refuses (returning `false`,
leaving the frame untouched) while `next_index < SERIAL_FRAME_SIZE`, i.e.
while the previous frame is still draining; otherwise writes the header,
the three payload fields, and the checksum (every one of the 8 bytes is
overwritten), resets `next_index` to 0, and returns `true`. -/
def serial_send (f : SerialTxFrame) (tach voltage current : Nat) :
    SerialTxFrame × Bool :=
  if f.next_index < SERIAL_FRAME_SIZE then
    (f, false)
  else
    let payload := serial_frame_payload tach voltage current
    ({ data := SERIAL_FRAME_HEADER :: serial_checksum payload :: payload,
       next_index := 0 }, true)

/-- `serial_poll()`: does nothing when `next_index >= SERIAL_FRAME_SIZE`
(frame fully drained) or when the UART data register is not empty
(`ready = false` models `!(UCSR0A & (1 << 5))`); otherwise emits
`data[next_index]` and increments the cursor. -/
def serial_poll (f : SerialTxFrame) (ready : Bool) :
    SerialTxFrame × Option Nat :=
  if SERIAL_FRAME_SIZE ≤ f.next_index then (f, none)
  else if !ready then (f, none)
  else ({ data := f.data, next_index := f.next_index + 1 },
        some (f.data.getD f.next_index 0))

/-- Events touching the serial frame buffer and the failure latch in
`main`: a publish attempt (lines 262-266: `serial_send` followed by the
sticky `failure_latch` update and `led_set`) or an opportunistic
`serial_poll` from a busy-wait. -/
inductive MainEvent where
  | publish (tach voltage current : Nat)
  | poll (ready : Bool)
  deriving Repr, DecidableEq

/-- The state touched by those events: the frame buffer and the
`static bool failure_latch` of `main`. -/
structure PubState where
  frame : SerialTxFrame
  failure_latch : Bool
  deriving Repr, DecidableEq

/-- State at the top of the main loop: frame initialised by
`serial_init`, `failure_latch = false`. -/
def pubInit : PubState := { frame := serialInitFrame, failure_latch := false }

/-- One event step; a publish also yields the value driven onto the LED
(`led_set(failure_latch)` after the latch update). -/
def main_step (s : PubState) : MainEvent → PubState × Option Bool
  | MainEvent.publish t v c =>
      let r := serial_send s.frame t v c
      let latch := if r.2 then s.failure_latch else true
      ({ frame := r.1, failure_latch := latch }, some latch)
  | MainEvent.poll ready =>
      ({ frame := (serial_poll s.frame ready).1,
         failure_latch := s.failure_latch }, none)

/-- Run a list of events, collecting the LED outputs of the publish
steps in order. -/
def main_run (s : PubState) : List MainEvent → PubState × List Bool
  | [] => (s, [])
  | e :: es =>
      let r := main_step s e
      let rest := main_run r.1 es
      (rest.1, match r.2 with
               | some b => b :: rest.2
               | none => rest.2)

/-- Wrapped 16-bit subtraction `a - b` as computed on `uint16_t`
operands. -/
def sub16 (a b : Nat) : Nat := (a % 65536 + (65536 - b % 65536)) % 65536

/-- The period/timeout state of `main`: `prev_opto_timestamp : uint16_t`
and `opto_timed_out : bool` (initially `true`). -/
structure TachState where
  prev : Nat
  timed_out : Bool
  deriving Repr, DecidableEq

/-- One iteration of the tachometer logic of the main loop
(lines 232-244), given the edge detector's output and the current
`uint16_t` timestamp; returns the new state and `some tach` when
`need_publish` is set (`tach = 0` for a stall event). -/
def tach_step (s : TachState) (edge : Bool) (timestamp : Nat) :
    TachState × Option Nat :=
  let ts := timestamp % 65536
  if edge then
    if !s.timed_out then
      ({ prev := ts, timed_out := s.timed_out }, some (sub16 ts s.prev))
    else
      ({ prev := ts, timed_out := false }, none)
  else if sub16 ts s.prev > 50000 then
    ({ prev := ts, timed_out := true }, some 0)
  else
    (s, none)

/-- Run the tachometer logic over a list of (edge, timestamp) steps,
collecting the published values in order. -/
def tach_run (s : TachState) : List (Bool × Nat) → TachState × List Nat
  | [] => (s, [])
  | p :: ps =>
      let r := tach_step s p.1 p.2
      let rest := tach_run r.1 ps
      (rest.1, match r.2 with
               | some t => t :: rest.2
               | none => rest.2)

/-- Little-endian decoding of a 16-bit field from two frame bytes. -/
def serial_decode16 (lo hi : Nat) : Nat := lo + 256 * hi

lemma sub16_mod_left (a b : Nat) : sub16 (a % 65536) b = sub16 a b := by
  unfold sub16
  omega

lemma serial_checksum_foldl (a : Nat) (l : List Nat) :
    l.foldl (fun x y => (x + y) % 256) (a % 256) = (a + l.sum) % 256 := by
  induction l generalizing a with
  | nil => simp
  | cons b bs ih =>
      simp only [List.foldl_cons, List.sum_cons]
      rw [Nat.mod_add_mod, ih, Nat.add_assoc]

lemma serial_checksum_eq_sum (l : List Nat) :
    serial_checksum l = l.sum % 256 := by
  have h := serial_checksum_foldl 0 l
  simpa [serial_checksum] using h

/-- Spec claim C1, as written, is refuted: with the tracker already timed
out (`timed_out = true`, exactly the situation after a first stall or at
boot) and no edge, a step whose wrapped elapsed time exceeds 50000 still
reports a stall event (`some 0`), and a second such step reports a second
stall in the same edge-free gap: the code has no "not already timed out"
guard on the timeout branch. -/
theorem C1_counterexample :
    ({ prev := 0, timed_out := true } : TachState).timed_out = true ∧
    (tach_step { prev := 0, timed_out := true } false 50001).2 = some 0 ∧
    (tach_step { prev := 0, timed_out := true } false 50001).1.timed_out = true ∧
    (tach_step (tach_step { prev := 0, timed_out := true } false 50001).1
        false 34466).2 = some 0 := by
  decide

/-- Claim C1 (amended): in a no-edge step a stall event (`some 0`) is
reported exactly when the wrapped difference `timestamp - prev` exceeds
50000, regardless of the timed-out flag; the stall sets `timed_out` and
rebases `prev` to the current timestamp, and otherwise the state is
unchanged and nothing is reported. Hence in an edge-free gap stalls recur
every 50000+ ticks rather than at most once. -/
theorem C1_amended (s : TachState) (ts : Nat) :
    ((tach_step s false ts).2 = some 0 ↔ 50000 < sub16 ts s.prev) ∧
    (50000 < sub16 ts s.prev →
      tach_step s false ts =
        ({ prev := ts % 65536, timed_out := true }, some 0)) ∧
    (¬ 50000 < sub16 ts s.prev → tach_step s false ts = (s, none)) := by
  have hsub : sub16 (ts % 65536) s.prev = sub16 ts s.prev := sub16_mod_left ts s.prev
  constructor
  · constructor
    · intro h
      by_contra hc
      simp [tach_step, hsub, hc] at h
    · intro h
      simp [tach_step, hsub, h]
  · constructor
    · intro h
      simp [tach_step, hsub, h]
    · intro h
      simp [tach_step, hsub, h]

/-- Witness for C1_amended at a concrete input: from `prev = 0`,
`timed_out = false`, a no-edge step at timestamp 60000 (wrapped elapsed
60000 > 50000) reports a stall and sets the timed-out flag. -/
theorem C1_amended_witness :
    50000 < sub16 60000 (({ prev := 0, timed_out := false } : TachState).prev) ∧
    tach_step { prev := 0, timed_out := false } false 60000 =
      ({ prev := 60000 % 65536, timed_out := true }, some 0) :=
  ⟨by decide, (C1_amended { prev := 0, timed_out := false } 60000).2.1 (by decide)⟩

/-- Claim C2: on an edge step, if the tracker is not timed out the
wrapped 16-bit period `timestamp - prev` is reported; if it is timed out
the flag is cleared and nothing is reported; in both cases `prev` is set
to the current timestamp; and the very next edge after an absorbed one
reports normally (exactly one post-stall edge is absorbed). -/
theorem C2_edge_step (s : TachState) (ts : Nat) :
    (s.timed_out = false →
      tach_step s true ts =
        ({ prev := ts % 65536, timed_out := false }, some (sub16 ts s.prev))) ∧
    (s.timed_out = true →
      tach_step s true ts = ({ prev := ts % 65536, timed_out := false }, none)) ∧
    (tach_step s true ts).1.prev = ts % 65536 ∧
    (s.timed_out = true → ∀ ts2 : Nat,
      (tach_step (tach_step s true ts).1 true ts2).2 =
        some (sub16 ts2 (ts % 65536))) := by
  have hsub : sub16 (ts % 65536) s.prev = sub16 ts s.prev := sub16_mod_left ts s.prev
  refine ⟨?_, ?_, ?_, ?_⟩
  · intro h; simp [tach_step, hsub, h]
  · intro h; simp [tach_step, h]
  · cases hto : s.timed_out <;> simp [tach_step, hto]
  · intro h ts2
    simp [tach_step, h, sub16_mod_left]

/-- Witness for C2_edge_step: edges at timestamps 1000 and 1500 with no
prior timeout give one reported period of 500 (the end-to-end scenario of
the spec). -/
theorem C2_edge_step_witness :
    ({ prev := 1000, timed_out := false } : TachState).timed_out = false ∧
    sub16 1500 1000 = 500 ∧
    tach_step { prev := 1000, timed_out := false } true 1500 =
      ({ prev := 1500 % 65536, timed_out := false }, some (sub16 1500 1000)) :=
  ⟨rfl, by decide, (C2_edge_step { prev := 1000, timed_out := false } 1500).1 rfl⟩

/-- Claim C6: a successful load produces exactly the 8 bytes
`[0xFA, checksum, tach_lo, tach_hi, volt_lo, volt_hi, curr_lo, curr_hi]`
with 16-bit fields little-endian; the checksum is the 8-bit wrapping sum
of bytes 2..7 (header excluded); and little-endian decoding of the three
fields recovers the exact input triple. -/
theorem C6_frame_roundtrip (f : SerialTxFrame) (t v c : Nat)
    (ht : t < 65536) (hv : v < 65536) (hc : c < 65536)
    (hidle : SERIAL_FRAME_SIZE ≤ f.next_index) :
    (serial_send f t v c).2 = true ∧
    (serial_send f t v c).1.data =
      [SERIAL_FRAME_HEADER,
       (t % 256 + t / 256 + v % 256 + v / 256 + c % 256 + c / 256) % 256,
       t % 256, t / 256, v % 256, v / 256, c % 256, c / 256] ∧
    serial_decode16 ((serial_send f t v c).1.data.getD 2 0)
        ((serial_send f t v c).1.data.getD 3 0) = t ∧
    serial_decode16 ((serial_send f t v c).1.data.getD 4 0)
        ((serial_send f t v c).1.data.getD 5 0) = v ∧
    serial_decode16 ((serial_send f t v c).1.data.getD 6 0)
        ((serial_send f t v c).1.data.getD 7 0) = c ∧
    ((serial_send f t v c).1.data.drop 2).sum % 256 =
      (serial_send f t v c).1.data.getD 1 0 := by
  have hnot : ¬ f.next_index < SERIAL_FRAME_SIZE := Nat.not_lt.mpr hidle
  have hts : t % 65536 = t := Nat.mod_eq_of_lt ht
  have hvs : v % 65536 = v := Nat.mod_eq_of_lt hv
  have hcs : c % 65536 = c := Nat.mod_eq_of_lt hc
  have key : serial_send f t v c =
      ({ data := SERIAL_FRAME_HEADER ::
           serial_checksum (serial_frame_payload t v c) ::
           serial_frame_payload t v c,
         next_index := 0 }, true) := by
    simp [serial_send, hnot]
  rw [key]
  refine ⟨rfl, ?_, ?_, ?_, ?_, ?_⟩
  · simp [serial_frame_payload, hts, hvs, hcs, serial_checksum_eq_sum,
      Nat.add_assoc]
  · simp only [serial_frame_payload, hts, hvs, hcs, serial_decode16, List.getD,
      List.get?, Option.getD_some]
    omega
  · simp only [serial_frame_payload, hts, hvs, hcs, serial_decode16, List.getD,
      List.get?, Option.getD_some]
    omega
  · simp only [serial_frame_payload, hts, hvs, hcs, serial_decode16, List.getD,
      List.get?, Option.getD_some]
    omega
  · simp [serial_frame_payload, hts, hvs, hcs, serial_checksum_eq_sum,
      Nat.add_assoc]

/-- Witness for C6_frame_roundtrip at (tach, voltage, current) =
(1000, 2000, 3000) from the freshly initialised (idle) frame buffer. -/
theorem C6_frame_roundtrip_witness :
    (1000 : Nat) < 65536 ∧ (2000 : Nat) < 65536 ∧ (3000 : Nat) < 65536 ∧
    SERIAL_FRAME_SIZE ≤ serialInitFrame.next_index ∧
    ((serial_send serialInitFrame 1000 2000 3000).2 = true ∧
     (serial_send serialInitFrame 1000 2000 3000).1.data =
       [SERIAL_FRAME_HEADER,
        (1000 % 256 + 1000 / 256 + 2000 % 256 + 2000 / 256 +
         3000 % 256 + 3000 / 256) % 256,
        1000 % 256, 1000 / 256, 2000 % 256, 2000 / 256,
        3000 % 256, 3000 / 256] ∧
     serial_decode16 ((serial_send serialInitFrame 1000 2000 3000).1.data.getD 2 0)
         ((serial_send serialInitFrame 1000 2000 3000).1.data.getD 3 0) = 1000 ∧
     serial_decode16 ((serial_send serialInitFrame 1000 2000 3000).1.data.getD 4 0)
         ((serial_send serialInitFrame 1000 2000 3000).1.data.getD 5 0) = 2000 ∧
     serial_decode16 ((serial_send serialInitFrame 1000 2000 3000).1.data.getD 6 0)
         ((serial_send serialInitFrame 1000 2000 3000).1.data.getD 7 0) = 3000 ∧
     ((serial_send serialInitFrame 1000 2000 3000).1.data.drop 2).sum % 256 =
       (serial_send serialInitFrame 1000 2000 3000).1.data.getD 1 0) :=
  ⟨by decide, by decide, by decide, by decide,
   C6_frame_roundtrip serialInitFrame 1000 2000 3000
     (by decide) (by decide) (by decide) (by decide)⟩

/-- Claim C7: while a previous frame is still draining
(`next_index < SERIAL_FRAME_SIZE`) the load returns `false` and leaves
the entire buffer state (all 8 data bytes and the cursor) unchanged;
once the cursor has reached the frame length the load returns `true`,
populates the buffer (header, checksum = wrapped sum of the payload,
payload bytes), and resets the cursor to 0. -/
theorem C7_backpressure (f : SerialTxFrame) (t v c : Nat) :
    (f.next_index < SERIAL_FRAME_SIZE → serial_send f t v c = (f, false)) ∧
    (SERIAL_FRAME_SIZE ≤ f.next_index →
      (serial_send f t v c).2 = true ∧
      (serial_send f t v c).1.next_index = 0 ∧
      (serial_send f t v c).1.data =
        SERIAL_FRAME_HEADER :: (serial_frame_payload t v c).sum % 256 ::
          serial_frame_payload t v c) := by
  constructor
  · intro h
    simp [serial_send, h]
  · intro h
    have hnot : ¬ f.next_index < SERIAL_FRAME_SIZE := Nat.not_lt.mpr h
    simp [serial_send, hnot, serial_checksum_eq_sum]

/-- Witness for C7_backpressure: a mid-drain buffer (cursor 3) rejects a
load unchanged, and the idle initial buffer accepts one. -/
theorem C7_backpressure_witness :
    (({ data := [250, 0, 0, 0, 0, 0, 0, 0], next_index := 3 } :
        SerialTxFrame).next_index < SERIAL_FRAME_SIZE ∧
      serial_send { data := [250, 0, 0, 0, 0, 0, 0, 0], next_index := 3 } 1 2 3 =
        ({ data := [250, 0, 0, 0, 0, 0, 0, 0], next_index := 3 }, false)) ∧
    (SERIAL_FRAME_SIZE ≤ serialInitFrame.next_index ∧
      (serial_send serialInitFrame 1 2 3).2 = true ∧
      (serial_send serialInitFrame 1 2 3).1.next_index = 0 ∧
      (serial_send serialInitFrame 1 2 3).1.data =
        SERIAL_FRAME_HEADER :: (serial_frame_payload 1 2 3).sum % 256 ::
          serial_frame_payload 1 2 3) :=
  ⟨⟨by decide,
    (C7_backpressure { data := [250, 0, 0, 0, 0, 0, 0, 0], next_index := 3 }
      1 2 3).1 (by decide)⟩,
   ⟨by decide,
    (C7_backpressure serialInitFrame 1 2 3).2 (by decide)⟩⟩

lemma main_step_latch_mono (s : PubState) (e : MainEvent)
    (h : s.failure_latch = true) :
    (main_step s e).1.failure_latch = true := by
  cases e with
  | publish t v c =>
      simp only [main_step, h]
      split <;> rfl
  | poll r => simpa [main_step] using h

lemma main_step_output_eq_latch (s : PubState) (e : MainEvent) (b : Bool)
    (h : (main_step s e).2 = some b) :
    b = (main_step s e).1.failure_latch := by
  cases e with
  | publish t v c =>
      simp only [main_step, Option.some_inj] at h
      simp [main_step, h]
  | poll r => simp [main_step] at h

lemma main_run_latch_true (s : PubState) (evs : List MainEvent)
    (h : s.failure_latch = true) :
    (main_run s evs).1.failure_latch = true ∧
    ∀ b ∈ (main_run s evs).2, b = true := by
  induction evs generalizing s with
  | nil => simpa [main_run] using h
  | cons e es ih =>
      have hstep := main_step_latch_mono s e h
      have hrest := ih (main_step s e).1 hstep
      constructor
      · simpa [main_run] using hrest.1
      · intro b hb
        simp only [main_run] at hb
        cases ho : (main_step s e).2 with
        | none =>
            rw [ho] at hb
            exact hrest.2 b hb
        | some b0 =>
            rw [ho] at hb
            rcases List.mem_cons.mp hb with hb1 | hb2
            · rw [hb1, main_step_output_eq_latch s e b0 ho]
              exact hstep
            · exact hrest.2 b hb2

/-- Claim C8: the failure latch is sticky and monotone. Once set (a frame
load failed), it stays set along every subsequent event sequence and every
subsequent publish drives the LED with `true`; and no single step of the
program ever takes the latch from set back to clear. -/
theorem C8_sticky_failure_latch (s : PubState) (evs : List MainEvent)
    (e : MainEvent) :
    (s.failure_latch = true →
      (main_run s evs).1.failure_latch = true ∧
      ∀ b ∈ (main_run s evs).2, b = true) ∧
    ((main_step s e).1.failure_latch = false → s.failure_latch = false) := by
  constructor
  · intro h
    exact main_run_latch_true s evs h
  · intro h
    by_contra hc
    have ht : s.failure_latch = true := by
      cases hl : s.failure_latch
      · exact absurd hl hc
      · rfl
    rw [main_step_latch_mono s e ht] at h
    exact Bool.true_eq_false_eq_False h

/-- Witness for C8_sticky_failure_latch: starting with the latch set,
running a publish then a poll keeps it set and drives the LED with
`true`; a poll step that ends with the latch clear must have started
clear. -/
theorem C8_sticky_failure_latch_witness :
    ({ frame := serialInitFrame, failure_latch := true } : PubState).failure_latch
        = true ∧
    ((main_run { frame := serialInitFrame, failure_latch := true }
        [MainEvent.publish 1 2 3, MainEvent.poll true]).1.failure_latch = true ∧
      ∀ b ∈ (main_run { frame := serialInitFrame, failure_latch := true }
        [MainEvent.publish 1 2 3, MainEvent.poll true]).2, b = true) ∧
    ((main_step { frame := serialInitFrame, failure_latch := true }
        (MainEvent.poll false)).1.failure_latch = false →
      ({ frame := serialInitFrame, failure_latch := true } : PubState).failure_latch
        = false) :=
  ⟨rfl,
   (C8_sticky_failure_latch { frame := serialInitFrame, failure_latch := true }
      [MainEvent.publish 1 2 3, MainEvent.poll true] (MainEvent.poll false)).1 rfl,
   (C8_sticky_failure_latch { frame := serialInitFrame, failure_latch := true }
      [MainEvent.publish 1 2 3, MainEvent.poll true] (MainEvent.poll false)).2⟩

/-- Invariant of the transmit buffer: the cursor never exceeds the frame
size and the data buffer always holds exactly 8 bytes. -/
def frame_inv (f : SerialTxFrame) : Prop :=
  f.next_index ≤ SERIAL_FRAME_SIZE ∧ f.data.length = SERIAL_FRAME_SIZE

lemma frame_inv_init : frame_inv serialInitFrame := by
  constructor <;> simp [serialInitFrame]

lemma frame_inv_send (f : SerialTxFrame) (t v c : Nat) (h : frame_inv f) :
    frame_inv (serial_send f t v c).1 := by
  unfold serial_send
  split
  · exact h
  · exact ⟨Nat.zero_le _, by simp [serial_frame_payload, SERIAL_FRAME_SIZE]⟩

lemma frame_inv_poll (f : SerialTxFrame) (r : Bool) (h : frame_inv f) :
    frame_inv (serial_poll f r).1 := by
  unfold serial_poll
  split
  · exact h
  · split
    · exact h
    · rename_i h8 _
      exact ⟨Nat.succ_le_of_lt (Nat.lt_of_not_le h8), h.2⟩

lemma frame_inv_step (s : PubState) (e : MainEvent) (h : frame_inv s.frame) :
    frame_inv (main_step s e).1.frame := by
  cases e with
  | publish t v c => exact frame_inv_send s.frame t v c h
  | poll r => exact frame_inv_poll s.frame r h

lemma frame_inv_run (s : PubState) (evs : List MainEvent)
    (h : frame_inv s.frame) : frame_inv (main_run s evs).1.frame := by
  induction evs generalizing s with
  | nil => simpa [main_run] using h
  | cons e es ih =>
      have := ih (main_step s e).1 (frame_inv_step s e h)
      simpa [main_run] using this

lemma serial_poll_emit (f : SerialTxFrame) (r : Bool) (b : Nat)
    (h : (serial_poll f r).2 = some b) :
    f.next_index < SERIAL_FRAME_SIZE ∧ b = f.data.getD f.next_index 0 := by
  unfold serial_poll at h
  split at h
  · exact absurd h (by simp)
  · split at h
    · exact absurd h (by simp)
    · rename_i h8 _
      exact ⟨Nat.lt_of_not_le h8, (Option.some_inj.mp h).symm⟩

lemma serial_poll_advance (f : SerialTxFrame) (r : Bool) :
    (serial_poll f r).1.next_index ≤ f.next_index + 1 := by
  unfold serial_poll
  split
  · exact Nat.le_succ _
  · split
    · exact Nat.le_succ _
    · exact Nat.le_refl _

/-- Claim C9 (implicit): after initialisation and after any sequence of
`serial_send` / `serial_poll` calls, the cursor `next_index` is at most
`SERIAL_FRAME_SIZE` (8) and the buffer holds exactly 8 bytes; whenever
`serial_poll` emits a byte its read of `data[next_index]` has
`next_index < 8` (strictly inside the buffer); and each `serial_poll`
call advances the cursor by at most one. -/
theorem C9_cursor_in_bounds (evs : List MainEvent) (ready : Bool) (b : Nat)
    (hemit : (serial_poll (main_run pubInit evs).1.frame ready).2 = some b) :
    (main_run pubInit evs).1.frame.next_index ≤ SERIAL_FRAME_SIZE ∧
    (main_run pubInit evs).1.frame.data.length = SERIAL_FRAME_SIZE ∧
    ((main_run pubInit evs).1.frame.next_index < SERIAL_FRAME_SIZE ∧
      b = (main_run pubInit evs).1.frame.data.getD
            (main_run pubInit evs).1.frame.next_index 0) ∧
    (serial_poll (main_run pubInit evs).1.frame ready).1.next_index ≤
      (main_run pubInit evs).1.frame.next_index + 1 := by
  have hinv : frame_inv (main_run pubInit evs).1.frame :=
    frame_inv_run pubInit evs frame_inv_init
  exact ⟨hinv.1, hinv.2,
    serial_poll_emit (main_run pubInit evs).1.frame ready b hemit,
    serial_poll_advance (main_run pubInit evs).1.frame ready⟩

/-- Witness for C9_cursor_in_bounds: after a publish from the initial
state the frame is loaded (cursor 0) and a poll with the transmitter
ready emits the header byte from inside the buffer. -/
theorem C9_cursor_in_bounds_witness :
    (serial_poll (main_run pubInit [MainEvent.publish 1 2 3]).1.frame
        true).2 = some SERIAL_FRAME_HEADER ∧
    ((main_run pubInit [MainEvent.publish 1 2 3]).1.frame.next_index ≤
        SERIAL_FRAME_SIZE ∧
      (main_run pubInit [MainEvent.publish 1 2 3]).1.frame.data.length =
        SERIAL_FRAME_SIZE ∧
      ((main_run pubInit [MainEvent.publish 1 2 3]).1.frame.next_index <
          SERIAL_FRAME_SIZE ∧
        SERIAL_FRAME_HEADER =
          (main_run pubInit [MainEvent.publish 1 2 3]).1.frame.data.getD
            (main_run pubInit [MainEvent.publish 1 2 3]).1.frame.next_index 0) ∧
      (serial_poll (main_run pubInit [MainEvent.publish 1 2 3]).1.frame
          true).1.next_index ≤
        (main_run pubInit [MainEvent.publish 1 2 3]).1.frame.next_index + 1) :=
  ⟨by decide,
   C9_cursor_in_bounds [MainEvent.publish 1 2 3] true SERIAL_FRAME_HEADER
     (by decide)⟩

/-- Threshold constant `OPTO_THRESHOLD` (30). -/
def OPTO_THRESHOLD : Int := 30

/-- Window size constant `OPTO_DC_HISTORY_LEN` (1024). -/
def OPTO_DC_HISTORY_LEN : Nat := 1024

/-- The static state of `opto_update_dc_signal`:
`uint8_t hist[1024]`, `uint16_t num_samples`, `uint16_t index`,
`uint32_t sum`. -/
structure DCState where
  hist : List Nat
  num_samples : Nat
  index : Nat
  sum : Nat
  deriving Repr, DecidableEq

/-- Initial DC-tracker state: static storage is zero-initialised. -/
def dcInit : DCState :=
  { hist := List.replicate OPTO_DC_HISTORY_LEN 0,
    num_samples := 0, index := 0, sum := 0 }

/-- `opto_update_dc_signal(sample)`: the `uint8_t` parameter takes the
value `sample % 256`. When the window is full (`num_samples ==
OPTO_DC_HISTORY_LEN`): subtract the evicted entry from the `uint32_t`
running sum, overwrite the slot at `index`, add the new sample, advance
`index` (wrapping to 0 at the window length), and return
`sum / OPTO_DC_HISTORY_LEN` as a `uint8_t`. Otherwise (warm-up): append
at position `num_samples`, bump the `uint16_t` counter, add to the sum,
and return `sum / num_samples` as a `uint8_t`. -/
def opto_update_dc_signal (s : DCState) (sample : Nat) : DCState × Nat :=
  let x := sample % 256
  if s.num_samples = OPTO_DC_HISTORY_LEN then
    let sum1 := (s.sum + (4294967296 - s.hist.getD s.index 0)) % 4294967296
    let hist1 := s.hist.set s.index x
    let sum2 := (sum1 + x) % 4294967296
    let index1 := s.index + 1
    let index2 := if OPTO_DC_HISTORY_LEN ≤ index1 then 0 else index1
    ({ hist := hist1, num_samples := s.num_samples,
       index := index2, sum := sum2 },
     sum2 / OPTO_DC_HISTORY_LEN % 256)
  else
    let hist1 := s.hist.set s.num_samples x
    let ns1 := (s.num_samples + 1) % 65536
    let sum1 := (s.sum + x) % 4294967296
    ({ hist := hist1, num_samples := ns1, index := s.index, sum := sum1 },
     sum1 / ns1 % 256)

/-- State of the DC tracker after feeding a whole sample sequence. -/
def dcRun (l : List Nat) : DCState :=
  l.foldl (fun s x => (opto_update_dc_signal s x).1) dcInit

/-- The most recent `OPTO_DC_HISTORY_LEN` samples of a sequence (the
whole sequence while it is shorter than the window). -/
def dcWindow (l : List Nat) : List Nat :=
  l.drop (l.length - OPTO_DC_HISTORY_LEN)

lemma take_append_length (l1 l2 : List Nat) : (l1 ++ l2).take l1.length = l1 := by
  induction l1 with
  | nil => simp
  | cons a t ih => simp [ih]

lemma drop_append_length (l1 l2 : List Nat) : (l1 ++ l2).drop l1.length = l2 := by
  induction l1 with
  | nil => simp
  | cons a t ih => simp [ih]

lemma getD_append_length (l1 l2 : List Nat) (d : Nat) :
    (l1 ++ l2).getD l1.length d = l2.getD 0 d := by
  induction l1 with
  | nil => simp
  | cons a t ih => simpa using ih

lemma set_append_length (l1 l2 : List Nat) (a : Nat) :
    (l1 ++ l2).set l1.length a = l1 ++ l2.set 0 a := by
  induction l1 with
  | nil => simp
  | cons b t ih => simp [ih]

lemma drop_append_le (l1 l2 : List Nat) (k : Nat) (h : k ≤ l1.length) :
    (l1 ++ l2).drop k = l1.drop k ++ l2 := by
  induction l1 generalizing k with
  | nil =>
      have : k = 0 := Nat.le_zero.mp (by simpa using h)
      simp [this]
  | cons a t ih =>
      cases k with
      | zero => simp
      | succ k2 => simpa using ih k2 (by simpa using h)

lemma sum_le_mul255 (l : List Nat) (h : ∀ y ∈ l, y < 256) :
    l.sum ≤ l.length * 255 := by
  induction l with
  | nil => simp
  | cons a t ih =>
      simp only [List.sum_cons, List.length_cons]
      have ha : a < 256 := h a (List.mem_cons_self a t)
      have ht := ih fun y hy => h y (List.mem_cons_of_mem a hy)
      omega

lemma div_le_255 (a b : Nat) (hb : 0 < b) (h : a ≤ b * 255) : a / b ≤ 255 :=
  calc a / b ≤ b * 255 / b := Nat.div_le_div_right h
    _ = 255 := Nat.mul_div_cancel_left 255 hb

lemma dcWindow_length (l : List Nat) :
    (dcWindow l).length = min l.length OPTO_DC_HISTORY_LEN := by
  simp only [dcWindow, List.length_drop, OPTO_DC_HISTORY_LEN]
  omega

lemma dcWindow_subset (l : List Nat) (y : Nat) (hy : y ∈ dcWindow l) : y ∈ l :=
  List.drop_subset _ l hy

lemma dcWindow_of_le (l : List Nat) (h : l.length ≤ OPTO_DC_HISTORY_LEN) :
    dcWindow l = l := by
  have h0 : l.length - OPTO_DC_HISTORY_LEN = 0 := Nat.sub_eq_zero_of_le h
  simp [dcWindow, h0]

lemma dcWindow_snoc_full (l : List Nat) (x : Nat)
    (h : OPTO_DC_HISTORY_LEN ≤ l.length) :
    dcWindow (l ++ [x]) = (dcWindow l).drop 1 ++ [x] := by
  have h1 : (l ++ [x]).length - OPTO_DC_HISTORY_LEN =
      (l.length - OPTO_DC_HISTORY_LEN) + 1 := by
    simp only [List.length_append, List.length_cons, List.length_nil,
      OPTO_DC_HISTORY_LEN] at *
    omega
  have h2 : (l.length - OPTO_DC_HISTORY_LEN) + 1 ≤ l.length := by
    simp only [OPTO_DC_HISTORY_LEN] at *
    omega
  unfold dcWindow
  rw [h1, drop_append_le l [x] _ h2, List.drop_drop]

/-- Inductive invariant tying the DC-tracker state after feeding the
sample sequence `l` to the sequence itself: buffer length, sample
counter, ring index, running sum, and the circular arrangement of the
most recent window (oldest first, padded with the untouched zeros during
warm-up). -/
def dc_inv (l : List Nat) (s : DCState) : Prop :=
  s.hist.length = OPTO_DC_HISTORY_LEN ∧
  s.num_samples = min l.length OPTO_DC_HISTORY_LEN ∧
  s.index = (if l.length < OPTO_DC_HISTORY_LEN then 0
             else l.length % OPTO_DC_HISTORY_LEN) ∧
  s.sum = (dcWindow l).sum ∧
  s.hist.drop s.index ++ s.hist.take s.index =
    dcWindow l ++ List.replicate (OPTO_DC_HISTORY_LEN - l.length) 0

lemma dc_inv_init : dc_inv [] dcInit := by
  refine ⟨by simp [dcInit], by simp [dcInit], ?_, by simp [dcInit, dcWindow], ?_⟩
  · simp [dcInit, OPTO_DC_HISTORY_LEN]
  · simp [dcInit, dcWindow]

lemma dc_step_warm (l : List Nat) (x : Nat) (s : DCState)
    (hinv : dc_inv l s) (hl : ∀ y ∈ l, y < 256) (hx : x < 256)
    (hlt : l.length < OPTO_DC_HISTORY_LEN) :
    dc_inv (l ++ [x]) (opto_update_dc_signal s x).1 ∧
    (opto_update_dc_signal s x).2 = (l ++ [x]).sum / (l.length + 1) := by
  obtain ⟨hlen, hns, hidx, hsum, hring⟩ := hinv
  have h1024 : l.length < 1024 := by simpa [OPTO_DC_HISTORY_LEN] using hlt
  have hns' : s.num_samples = l.length := by
    rw [hns]
    simp only [OPTO_DC_HISTORY_LEN]
    omega
  have hne : ¬ s.num_samples = OPTO_DC_HISTORY_LEN := by
    rw [hns']
    simp only [OPTO_DC_HISTORY_LEN]
    omega
  have hxm : x % 256 = x := Nat.mod_eq_of_lt hx
  have hidx0 : s.index = 0 := by rw [hidx, if_pos hlt]
  have hwl : dcWindow l = l := dcWindow_of_le l (le_of_lt hlt)
  have hsum' : s.sum = l.sum := by rw [hsum, hwl]
  have hsumb : l.sum ≤ l.length * 255 := sum_le_mul255 l hl
  have e_ns : (s.num_samples + 1) % 65536 = l.length + 1 := by
    rw [hns']
    exact Nat.mod_eq_of_lt (by omega)
  have e_sum : (s.sum + x % 256) % 4294967296 = l.sum + x := by
    rw [hxm, hsum']
    exact Nat.mod_eq_of_lt (by omega)
  simp only [hidx0, List.drop_zero, List.take_zero, List.append_nil, hwl]
    at hring
  have e_hist : s.hist.set s.num_samples (x % 256) =
      (l ++ [x]) ++ List.replicate (OPTO_DC_HISTORY_LEN - (l.length + 1)) 0 := by
    rw [hxm, hns', hring]
    have hrep : List.replicate (OPTO_DC_HISTORY_LEN - l.length) (0:Nat) =
        0 :: List.replicate (OPTO_DC_HISTORY_LEN - (l.length + 1)) 0 := by
      have he : OPTO_DC_HISTORY_LEN - l.length =
          (OPTO_DC_HISTORY_LEN - (l.length + 1)) + 1 := by
        simp only [OPTO_DC_HISTORY_LEN]
        omega
      rw [he, List.replicate_succ]
    rw [hrep, set_append_length]
    simp
  have hwl2 : dcWindow (l ++ [x]) = l ++ [x] := by
    apply dcWindow_of_le
    simp only [List.length_append, List.length_cons, List.length_nil,
      OPTO_DC_HISTORY_LEN]
    omega
  have e_div : (l.sum + x) / (l.length + 1) % 256 =
      (l ++ [x]).sum / (l.length + 1) := by
    have hb : l.sum + x ≤ (l.length + 1) * 255 := by omega
    have := div_le_255 (l.sum + x) (l.length + 1) (Nat.succ_pos _) hb
    rw [List.sum_append, List.sum_cons, List.sum_nil, Nat.add_zero]
    exact Nat.mod_eq_of_lt (by omega)
  constructor
  · refine ⟨?_, ?_, ?_, ?_, ?_⟩
    · simp only [opto_update_dc_signal, if_neg hne]
      simp [List.length_set, hlen]
    · simp only [opto_update_dc_signal, if_neg hne]
      simp only [e_ns, List.length_append, List.length_cons, List.length_nil,
        OPTO_DC_HISTORY_LEN]
      omega
    · simp only [opto_update_dc_signal, if_neg hne]
      simp only [hidx0, List.length_append, List.length_cons, List.length_nil]
      split
      · rfl
      · rename_i hge
        simp only [OPTO_DC_HISTORY_LEN] at *
        omega
    · simp only [opto_update_dc_signal, if_neg hne]
      simp only [e_sum, hwl2, List.sum_append, List.sum_cons, List.sum_nil,
        Nat.add_zero]
    · simp only [opto_update_dc_signal, if_neg hne]
      simp only [hidx0, List.drop_zero, List.take_zero, List.append_nil,
        e_hist, hwl2, List.length_append, List.length_cons, List.length_nil]
  · simp only [opto_update_dc_signal, if_neg hne]
    simp only [e_ns, e_sum, e_div]

lemma dc_step_steady (l : List Nat) (x : Nat) (s : DCState)
    (hinv : dc_inv l s) (hl : ∀ y ∈ l, y < 256) (hx : x < 256)
    (hge : OPTO_DC_HISTORY_LEN ≤ l.length) :
    dc_inv (l ++ [x]) (opto_update_dc_signal s x).1 ∧
    (opto_update_dc_signal s x).2 =
      (dcWindow (l ++ [x])).sum / OPTO_DC_HISTORY_LEN := by
  obtain ⟨hlen, hns, hidx, hsum, hring⟩ := hinv
  have h1024 : 1024 ≤ l.length := by simpa [OPTO_DC_HISTORY_LEN] using hge
  have hns' : s.num_samples = OPTO_DC_HISTORY_LEN := by
    rw [hns]
    simp only [OPTO_DC_HISTORY_LEN]
    omega
  have hxm : x % 256 = x := Nat.mod_eq_of_lt hx
  have hidx' : s.index = l.length % 1024 := by
    rw [hidx, if_neg (by simp only [OPTO_DC_HISTORY_LEN]; omega)]
    simp only [OPTO_DC_HISTORY_LEN]
  have hi : s.index < 1024 := by rw [hidx']; omega
  have hlen' : s.hist.length = 1024 := by
    simpa [OPTO_DC_HISTORY_LEN] using hlen
  have hwlen : (dcWindow l).length = 1024 := by
    rw [dcWindow_length]
    simp only [OPTO_DC_HISTORY_LEN]
    omega
  have hwmem : ∀ y ∈ dcWindow l, y < 256 :=
    fun y hy => hl y (dcWindow_subset l y hy)
  have hwsumb : (dcWindow l).sum ≤ 1024 * 255 := by
    have h := sum_le_mul255 (dcWindow l) hwmem
    rw [hwlen] at h
    exact h
  have hring' : s.hist.drop s.index ++ s.hist.take s.index = dcWindow l := by
    have h0 : OPTO_DC_HISTORY_LEN - l.length = 0 := by
      simp only [OPTO_DC_HISTORY_LEN]
      omega
    simpa [h0] using hring
  obtain ⟨k2, hk2⟩ : ∃ k2, 1024 - s.index = k2 + 1 := ⟨1023 - s.index, by omega⟩
  have hdl : (s.hist.drop s.index).length = 1024 - s.index := by
    rw [List.length_drop, hlen']
  have hd : s.hist.drop s.index = (dcWindow l).take (1024 - s.index) := by
    have h1 : (s.hist.drop s.index ++ s.hist.take s.index).take (1024 - s.index) =
        s.hist.drop s.index := by
      rw [← hdl]
      exact take_append_length _ _
    rw [hring'] at h1
    exact h1.symm
  have ht : s.hist.take s.index = (dcWindow l).drop (1024 - s.index) := by
    have h1 : (s.hist.drop s.index ++ s.hist.take s.index).drop (1024 - s.index) =
        s.hist.take s.index := by
      rw [← hdl]
      exact drop_append_length _ _
    rw [hring'] at h1
    exact h1.symm
  obtain ⟨w0, wrest, hw⟩ : ∃ a t, dcWindow l = a :: t := by
    cases hcw : dcWindow l with
    | nil => rw [hcw] at hwlen; simp at hwlen
    | cons a t => exact ⟨a, t, rfl⟩
  have hw0 : w0 < 256 := hwmem w0 (by rw [hw]; exact List.mem_cons_self w0 wrest)
  have hwsum_cons : (dcWindow l).sum = w0 + wrest.sum := by
    rw [hw, List.sum_cons]
  have hwrlen : wrest.length = 1023 := by
    rw [hw] at hwlen
    simpa using hwlen
  have hwrsum : wrest.sum ≤ 1023 * 255 := by
    have h := sum_le_mul255 wrest fun y hy =>
      hwmem y (by rw [hw]; exact List.mem_cons_of_mem w0 hy)
    rw [hwrlen] at h
    exact h
  have hddl : ((dcWindow l).drop (1024 - s.index)).length = s.index := by
    rw [List.length_drop, hwlen]
    omega
  have he : s.hist.getD s.index 0 = w0 := by
    have hh : s.hist = (dcWindow l).drop (1024 - s.index) ++
        (dcWindow l).take (1024 - s.index) := by
      rw [← ht, ← hd, List.take_append_drop]
    have hg := getD_append_length ((dcWindow l).drop (1024 - s.index))
      ((dcWindow l).take (1024 - s.index)) 0
    rw [hddl] at hg
    rw [hh, hg, hw, hk2, List.take_succ_cons]
    rfl
  have e_sum1 : (s.sum + (4294967296 - s.hist.getD s.index 0)) % 4294967296 =
      wrest.sum := by
    rw [he, hsum, hwsum_cons]
    omega
  have e_sum2 : (wrest.sum + x % 256) % 4294967296 = wrest.sum + x := by
    rw [hxm]
    exact Nat.mod_eq_of_lt (by omega)
  have hw2 : dcWindow (l ++ [x]) = wrest ++ [x] := by
    rw [dcWindow_snoc_full l x hge, hw]
    simp
  have hpad : OPTO_DC_HISTORY_LEN - (l ++ [x]).length = 0 := by
    simp only [List.length_append, List.length_cons, List.length_nil,
      OPTO_DC_HISTORY_LEN]
    omega
  have htake1 : (s.hist.drop s.index).take 1 = [w0] := by
    rw [hd, List.take_take]
    have hmin : min 1 (1024 - s.index) = 1 := by omega
    rw [hmin, hw]
    rfl
  have hsetlhs : s.hist.set s.index (x % 256) = s.hist.set s.index x := by
    rw [hxm]
  -- the two ring shapes, by whether the index wraps this step
  by_cases hwrap : OPTO_DC_HISTORY_LEN ≤ s.index + 1
  · -- wrapping step: s.index = 1023, new index 0
    have hival : s.index = 1023 := by
      simp only [OPTO_DC_HISTORY_LEN] at hwrap
      omega
    have hk1 : 1024 - s.index = 1 := by omega
    have e_hist : s.hist.set s.index x = wrest ++ [x] := by
      have hh : s.hist = (dcWindow l).drop 1 ++ (dcWindow l).take 1 := by
        rw [← hk1, ← ht, ← hd, List.take_append_drop]
      have hddl1 : ((dcWindow l).drop 1).length = s.index := by
        rw [List.length_drop, hwlen]
        omega
      rw [hh, ← hddl1, set_append_length, hw]
      rfl
    constructor
    · refine ⟨?_, ?_, ?_, ?_, ?_⟩
      · simp only [opto_update_dc_signal, if_pos hns']
        simp [List.length_set, hlen]
      · simp only [opto_update_dc_signal, if_pos hns']
        rw [hns']
        simp only [List.length_append, List.length_cons, List.length_nil,
          OPTO_DC_HISTORY_LEN]
        omega
      · simp only [opto_update_dc_signal, if_pos hns', if_pos hwrap]
        rw [if_neg (by
          simp only [List.length_append, List.length_cons, List.length_nil,
            OPTO_DC_HISTORY_LEN]
          omega)]
        simp only [List.length_append, List.length_cons, List.length_nil,
          OPTO_DC_HISTORY_LEN]
        rw [hidx'] at hival
        omega
      · simp only [opto_update_dc_signal, if_pos hns']
        rw [e_sum1, e_sum2, hw2, List.sum_append, List.sum_cons, List.sum_nil,
          Nat.add_zero]
      · simp only [opto_update_dc_signal, if_pos hns', if_pos hwrap]
        simp only [List.drop_zero, List.take_zero, List.append_nil, hpad,
          List.replicate_zero, hsetlhs, e_hist, hw2]
    · simp only [opto_update_dc_signal, if_pos hns']
      rw [e_sum1, e_sum2, hw2, List.sum_append, List.sum_cons, List.sum_nil]
      have hb : wrest.sum + x ≤ 1024 * 255 := by omega
      have hq := div_le_255 (wrest.sum + x) 1024 (by omega) (by omega)
      simp only [OPTO_DC_HISTORY_LEN]
      rw [Nat.add_zero]
      exact Nat.mod_eq_of_lt (by omega)
  · -- non-wrapping step: new index s.index + 1
    have e_drop : (s.hist.set s.index x).drop (s.index + 1) =
        ((dcWindow l).take (1024 - s.index)).drop 1 := by
      rw [List.drop_set, if_pos (Nat.lt_succ_self _)]
      rw [← List.drop_drop, hd]
    have e_take : (s.hist.set s.index x).take (s.index + 1) =
        (dcWindow l).drop (1024 - s.index) ++ [x] := by
      have hg := set_append_length ((dcWindow l).drop (1024 - s.index)) [w0] x
      rw [hddl] at hg
      rw [List.set_take, List.take_add, ht, htake1, hg]
      rfl
    have e_ring : (s.hist.set s.index x).drop (s.index + 1) ++
        (s.hist.set s.index x).take (s.index + 1) = wrest ++ [x] := by
      rw [e_drop, e_take, hw, hk2, List.take_succ_cons, List.drop_succ_cons,
        List.drop_succ_cons, List.drop_zero, ← List.append_assoc,
        List.take_append_drop]
    constructor
    · refine ⟨?_, ?_, ?_, ?_, ?_⟩
      · simp only [opto_update_dc_signal, if_pos hns']
        simp [List.length_set, hlen]
      · simp only [opto_update_dc_signal, if_pos hns']
        rw [hns']
        simp only [List.length_append, List.length_cons, List.length_nil,
          OPTO_DC_HISTORY_LEN]
        omega
      · simp only [opto_update_dc_signal, if_pos hns', if_neg hwrap]
        rw [if_neg (by
          simp only [List.length_append, List.length_cons, List.length_nil,
            OPTO_DC_HISTORY_LEN]
          omega)]
        simp only [List.length_append, List.length_cons, List.length_nil,
          OPTO_DC_HISTORY_LEN] at *
        omega
      · simp only [opto_update_dc_signal, if_pos hns']
        rw [e_sum1, e_sum2, hw2, List.sum_append, List.sum_cons, List.sum_nil,
          Nat.add_zero]
      · simp only [opto_update_dc_signal, if_pos hns', if_neg hwrap]
        simp only [hpad, List.replicate_zero, List.append_nil, hsetlhs]
        rw [e_ring, hw2]
    · simp only [opto_update_dc_signal, if_pos hns']
      rw [e_sum1, e_sum2, hw2, List.sum_append, List.sum_cons, List.sum_nil]
      have hq := div_le_255 (wrest.sum + x) 1024 (by omega) (by omega)
      simp only [OPTO_DC_HISTORY_LEN]
      rw [Nat.add_zero]
      exact Nat.mod_eq_of_lt (by omega)

lemma dc_step_inv (l : List Nat) (x : Nat) (s : DCState)
    (hinv : dc_inv l s) (hl : ∀ y ∈ l, y < 256) (hx : x < 256) :
    dc_inv (l ++ [x]) (opto_update_dc_signal s x).1 ∧
    (opto_update_dc_signal s x).2 =
      (dcWindow (l ++ [x])).sum / min (l.length + 1) OPTO_DC_HISTORY_LEN := by
  by_cases hc : l.length < OPTO_DC_HISTORY_LEN
  · have h := dc_step_warm l x s hinv hl hx hc
    refine ⟨h.1, ?_⟩
    rw [h.2]
    have hwin : dcWindow (l ++ [x]) = l ++ [x] := by
      apply dcWindow_of_le
      simp only [List.length_append, List.length_cons, List.length_nil]
      omega
    have hmin : min (l.length + 1) OPTO_DC_HISTORY_LEN = l.length + 1 :=
      Nat.min_eq_left (by omega)
    rw [hwin, hmin]
  · have hge : OPTO_DC_HISTORY_LEN ≤ l.length := Nat.not_lt.mp hc
    have h := dc_step_steady l x s hinv hl hx hge
    refine ⟨h.1, ?_⟩
    rw [h.2]
    have hmin : min (l.length + 1) OPTO_DC_HISTORY_LEN = OPTO_DC_HISTORY_LEN :=
      Nat.min_eq_right (by omega)
    rw [hmin]

lemma dcRun_snoc (l : List Nat) (x : Nat) :
    dcRun (l ++ [x]) = (opto_update_dc_signal (dcRun l) x).1 := by
  simp [dcRun, List.foldl_append]

lemma dc_inv_run (l : List Nat) (hl : ∀ y ∈ l, y < 256) :
    dc_inv l (dcRun l) := by
  induction l using List.reverseRecOn with
  | nil => exact dc_inv_init
  | append_singleton l x ih =>
      have hl0 : ∀ y ∈ l, y < 256 := fun y hy => hl y (by simp [hy])
      have hx : x < 256 := hl x (by simp)
      rw [dcRun_snoc]
      exact (dc_step_inv l x (dcRun l) (ih hl0) hl0 hx).1

lemma dc_inv_evicted (l : List Nat) (s : DCState) (hinv : dc_inv l s)
    (hge : OPTO_DC_HISTORY_LEN ≤ l.length) :
    s.hist.getD s.index 0 = (dcWindow l).headD 0 := by
  obtain ⟨hlen, hns, hidx, hsum, hring⟩ := hinv
  have h1024 : 1024 ≤ l.length := by simpa [OPTO_DC_HISTORY_LEN] using hge
  have hi : s.index < 1024 := by
    rw [hidx, if_neg (by simp only [OPTO_DC_HISTORY_LEN]; omega)]
    simp only [OPTO_DC_HISTORY_LEN]
    omega
  have hlen' : s.hist.length = 1024 := by
    simpa [OPTO_DC_HISTORY_LEN] using hlen
  have hwlen : (dcWindow l).length = 1024 := by
    rw [dcWindow_length]
    simp only [OPTO_DC_HISTORY_LEN]
    omega
  have hring' : s.hist.drop s.index ++ s.hist.take s.index = dcWindow l := by
    have h0 : OPTO_DC_HISTORY_LEN - l.length = 0 := by
      simp only [OPTO_DC_HISTORY_LEN]
      omega
    simpa [h0] using hring
  obtain ⟨k2, hk2⟩ : ∃ k2, 1024 - s.index = k2 + 1 := ⟨1023 - s.index, by omega⟩
  have hdl : (s.hist.drop s.index).length = 1024 - s.index := by
    rw [List.length_drop, hlen']
  have hd : s.hist.drop s.index = (dcWindow l).take (1024 - s.index) := by
    have h1 : (s.hist.drop s.index ++ s.hist.take s.index).take (1024 - s.index) =
        s.hist.drop s.index := by
      rw [← hdl]
      exact take_append_length _ _
    rw [hring'] at h1
    exact h1.symm
  have ht : s.hist.take s.index = (dcWindow l).drop (1024 - s.index) := by
    have h1 : (s.hist.drop s.index ++ s.hist.take s.index).drop (1024 - s.index) =
        s.hist.take s.index := by
      rw [← hdl]
      exact drop_append_length _ _
    rw [hring'] at h1
    exact h1.symm
  obtain ⟨w0, wrest, hw⟩ : ∃ a t, dcWindow l = a :: t := by
    cases hcw : dcWindow l with
    | nil => rw [hcw] at hwlen; simp at hwlen
    | cons a t => exact ⟨a, t, rfl⟩
  have hddl : ((dcWindow l).drop (1024 - s.index)).length = s.index := by
    rw [List.length_drop, hwlen]
    omega
  have hh : s.hist = (dcWindow l).drop (1024 - s.index) ++
      (dcWindow l).take (1024 - s.index) := by
    rw [← ht, ← hd, List.take_append_drop]
  have hg := getD_append_length ((dcWindow l).drop (1024 - s.index))
    ((dcWindow l).take (1024 - s.index)) 0
  rw [hddl] at hg
  rw [hh, hg, hw, hk2, List.take_succ_cons]
  rfl

/-- Claim C3: for every sample sequence of length N < 1024, the N-th
call of the DC tracker returns `floor(sum / N)`, having appended the
sample to the ring (the buffer is the samples in order followed by the
untouched zeros), incremented the sample counter to N, and accumulated
the exact running sum. -/
theorem C3_warmup_average (l : List Nat) (x : Nat)
    (hlen : l.length + 1 < OPTO_DC_HISTORY_LEN)
    (hl : ∀ y ∈ l, y < 256) (hx : x < 256) :
    (opto_update_dc_signal (dcRun l) x).2 = (l ++ [x]).sum / (l.length + 1) ∧
    (dcRun (l ++ [x])).num_samples = l.length + 1 ∧
    (dcRun (l ++ [x])).sum = (l ++ [x]).sum ∧
    (dcRun (l ++ [x])).hist =
      (l ++ [x]) ++ List.replicate (OPTO_DC_HISTORY_LEN - (l.length + 1)) 0 := by
  have hl2 : ∀ y ∈ l ++ [x], y < 256 := by
    intro y hy
    rcases List.mem_append.mp hy with h | h
    · exact hl y h
    · simp only [List.mem_singleton] at h
      rw [h]
      exact hx
  have hwarm := dc_step_warm l x (dcRun l) (dc_inv_run l hl) hl hx (by omega)
  obtain ⟨hlen2, hns, hidx, hsum, hring⟩ := dc_inv_run (l ++ [x]) hl2
  have hlapp : (l ++ [x]).length = l.length + 1 := by simp
  have hidx0 : (dcRun (l ++ [x])).index = 0 := by
    rw [hidx, if_pos (by rw [hlapp]; omega)]
  have hwin : dcWindow (l ++ [x]) = l ++ [x] := by
    apply dcWindow_of_le
    rw [hlapp]
    omega
  refine ⟨hwarm.2, ?_, ?_, ?_⟩
  · rw [hns, hlapp]
    exact Nat.min_eq_left (by omega)
  · rw [hsum, hwin]
  · rw [hidx0] at hring
    simp only [List.drop_zero, List.take_zero, List.append_nil] at hring
    rw [hring, hwin, hlapp]

/-- Witness for C3_warmup_average on the samples [10, 20, 30]: the third
call returns (10 + 20 + 30) / 3 = 20, with counter 3, exact sum 60, and
the three samples at the front of the ring. -/
theorem C3_warmup_average_witness :
    ([10, 20] : List Nat).length + 1 < OPTO_DC_HISTORY_LEN ∧
    ((opto_update_dc_signal (dcRun [10, 20]) 30).2 =
        ([10, 20] ++ [30]).sum / (([10, 20] : List Nat).length + 1) ∧
      (dcRun ([10, 20] ++ [30])).num_samples = ([10, 20] : List Nat).length + 1 ∧
      (dcRun ([10, 20] ++ [30])).sum = ([10, 20] ++ [30]).sum ∧
      (dcRun ([10, 20] ++ [30])).hist =
        ([10, 20] ++ [30]) ++
          List.replicate (OPTO_DC_HISTORY_LEN - (([10, 20] : List Nat).length + 1)) 0) :=
  ⟨by decide,
   C3_warmup_average [10, 20] 30 (by decide) (by decide) (by decide)⟩

/-- Claim C4: once at least 1024 samples have been fed, the update
returns `floor(sum of the most recent 1024 samples / 1024)`; the ring
(read circularly from `index`) holds exactly the most recent 1024
samples in order with the running sum equal to their sum; and each
insertion after the fill overwrites in place exactly the slot holding
the oldest sample of the window. -/
theorem C4_steady_state (l : List Nat) (x : Nat)
    (hlen : OPTO_DC_HISTORY_LEN ≤ l.length + 1)
    (hl : ∀ y ∈ l, y < 256) (hx : x < 256) :
    (opto_update_dc_signal (dcRun l) x).2 =
      (dcWindow (l ++ [x])).sum / OPTO_DC_HISTORY_LEN ∧
    (dcRun (l ++ [x])).sum = (dcWindow (l ++ [x])).sum ∧
    (dcRun (l ++ [x])).hist.drop (dcRun (l ++ [x])).index ++
      (dcRun (l ++ [x])).hist.take (dcRun (l ++ [x])).index =
        dcWindow (l ++ [x]) ∧
    (dcWindow (l ++ [x])).length = OPTO_DC_HISTORY_LEN ∧
    (OPTO_DC_HISTORY_LEN ≤ l.length →
      (dcRun l).hist.getD (dcRun l).index 0 = (dcWindow l).headD 0 ∧
      (dcRun (l ++ [x])).hist = (dcRun l).hist.set (dcRun l).index x) := by
  have hl2 : ∀ y ∈ l ++ [x], y < 256 := by
    intro y hy
    rcases List.mem_append.mp hy with h | h
    · exact hl y h
    · simp only [List.mem_singleton] at h
      rw [h]
      exact hx
  have hinvl := dc_inv_run l hl
  have hstep := dc_step_inv l x (dcRun l) hinvl hl hx
  obtain ⟨hlen2, hns, hidx, hsum, hring⟩ := dc_inv_run (l ++ [x]) hl2
  have hlapp : (l ++ [x]).length = l.length + 1 := by simp
  have hpad : OPTO_DC_HISTORY_LEN - (l ++ [x]).length = 0 := by
    rw [hlapp]
    omega
  refine ⟨?_, hsum, ?_, ?_, ?_⟩
  · rw [hstep.2, Nat.min_eq_right hlen]
  · rw [hpad] at hring
    simpa using hring
  · rw [dcWindow_length, hlapp]
    exact Nat.min_eq_right hlen
  · intro h1024
    refine ⟨dc_inv_evicted l (dcRun l) hinvl h1024, ?_⟩
    have hns' : (dcRun l).num_samples = OPTO_DC_HISTORY_LEN := by
      rw [hinvl.2.1]
      exact Nat.min_eq_right h1024
    rw [dcRun_snoc]
    simp only [opto_update_dc_signal, if_pos hns']
    rw [Nat.mod_eq_of_lt hx]

/-- Witness for C4_steady_state on 1023 samples of value 7 followed by
one more 7: the window is full, its sum is 1024 * 7, and the estimate is
7. -/
theorem C4_steady_state_witness :
    OPTO_DC_HISTORY_LEN ≤ (List.replicate 1023 7 : List Nat).length + 1 ∧
    ((opto_update_dc_signal (dcRun (List.replicate 1023 7)) 7).2 =
        (dcWindow (List.replicate 1023 7 ++ [7])).sum / OPTO_DC_HISTORY_LEN ∧
      (dcRun (List.replicate 1023 7 ++ [7])).sum =
        (dcWindow (List.replicate 1023 7 ++ [7])).sum ∧
      (dcRun (List.replicate 1023 7 ++ [7])).hist.drop
          (dcRun (List.replicate 1023 7 ++ [7])).index ++
        (dcRun (List.replicate 1023 7 ++ [7])).hist.take
          (dcRun (List.replicate 1023 7 ++ [7])).index =
          dcWindow (List.replicate 1023 7 ++ [7]) ∧
      (dcWindow (List.replicate 1023 7 ++ [7])).length = OPTO_DC_HISTORY_LEN ∧
      (OPTO_DC_HISTORY_LEN ≤ (List.replicate 1023 7 : List Nat).length →
        (dcRun (List.replicate 1023 7)).hist.getD
            (dcRun (List.replicate 1023 7)).index 0 =
          (dcWindow (List.replicate 1023 7)).headD 0 ∧
        (dcRun (List.replicate 1023 7 ++ [7])).hist =
          (dcRun (List.replicate 1023 7)).hist.set
            (dcRun (List.replicate 1023 7)).index 7)) :=
  ⟨by simp [OPTO_DC_HISTORY_LEN],
   C4_steady_state (List.replicate 1023 7) 7
     (by simp [OPTO_DC_HISTORY_LEN])
     (by intro y hy; rw [List.eq_of_mem_replicate hy]; omega)
     (by omega)⟩

/-- Claim C10 (implicit): with 8-bit samples the 32-bit running sum is
bounded by 1024 * 255 = 261120 (so it never wraps), and in both regimes
the returned quotient is the running sum divided by the sample counter,
at most 255, so the `uint8_t` return conversion never truncates. -/
theorem C10_no_overflow (l : List Nat) (x : Nat)
    (hl : ∀ y ∈ l, y < 256) (hx : x < 256) :
    (dcRun l).sum ≤ 261120 ∧
    (dcRun (l ++ [x])).sum ≤ 261120 ∧
    (dcRun (l ++ [x])).sum < 4294967296 ∧
    (opto_update_dc_signal (dcRun l) x).2 =
      (dcRun (l ++ [x])).sum / (dcRun (l ++ [x])).num_samples ∧
    (opto_update_dc_signal (dcRun l) x).2 ≤ 255 := by
  have hl2 : ∀ y ∈ l ++ [x], y < 256 := by
    intro y hy
    rcases List.mem_append.mp hy with h | h
    · exact hl y h
    · simp only [List.mem_singleton] at h
      rw [h]
      exact hx
  have hwb : ∀ m : List Nat, (∀ y ∈ m, y < 256) →
      (dcWindow m).sum ≤ min m.length OPTO_DC_HISTORY_LEN * 255 := by
    intro m hm
    have h1 := sum_le_mul255 (dcWindow m)
      fun y hy => hm y (dcWindow_subset m y hy)
    rw [dcWindow_length] at h1
    exact h1
  have hinvl := dc_inv_run l hl
  have hinv2 := dc_inv_run (l ++ [x]) hl2
  have hstep := dc_step_inv l x (dcRun l) hinvl hl hx
  have hminle : ∀ m : List Nat, min m.length OPTO_DC_HISTORY_LEN * 255 ≤ 261120 := by
    intro m
    have := Nat.min_le_right m.length OPTO_DC_HISTORY_LEN
    simp only [OPTO_DC_HISTORY_LEN] at *
    omega
  have hb1 : (dcRun l).sum ≤ 261120 := by
    rw [hinvl.2.2.2.1]
    exact le_trans (hwb l hl) (hminle l)
  have hb2 : (dcRun (l ++ [x])).sum ≤ 261120 := by
    rw [hinv2.2.2.2.1]
    exact le_trans (hwb _ hl2) (hminle _)
  have hlapp : (l ++ [x]).length = l.length + 1 := by simp
  have hout : (opto_update_dc_signal (dcRun l) x).2 =
      (dcRun (l ++ [x])).sum / (dcRun (l ++ [x])).num_samples := by
    rw [hstep.2, hinv2.2.2.2.1, hinv2.2.1, hlapp]
  refine ⟨hb1, hb2, by omega, hout, ?_⟩
  rw [hout, hinv2.2.2.2.1, hinv2.2.1, hlapp]
  apply div_le_255
  · have : 1 ≤ min (l.length + 1) OPTO_DC_HISTORY_LEN := by
      simp only [OPTO_DC_HISTORY_LEN]
      omega
    omega
  · have h1 := hwb (l ++ [x]) hl2
    rw [hlapp] at h1
    omega

/-- Witness for C10_no_overflow on samples [100, 200] then 50: the sum
is 350 < 2^32 and the estimate 350 / 3 = 116 fits in a byte. -/
theorem C10_no_overflow_witness :
    (∀ y ∈ ([100, 200] : List Nat), y < 256) ∧
    ((dcRun [100, 200]).sum ≤ 261120 ∧
      (dcRun ([100, 200] ++ [50])).sum ≤ 261120 ∧
      (dcRun ([100, 200] ++ [50])).sum < 4294967296 ∧
      (opto_update_dc_signal (dcRun [100, 200]) 50).2 =
        (dcRun ([100, 200] ++ [50])).sum /
          (dcRun ([100, 200] ++ [50])).num_samples ∧
      (opto_update_dc_signal (dcRun [100, 200]) 50).2 ≤ 255) :=
  ⟨by decide, C10_no_overflow [100, 200] 50 (by decide) (by decide)⟩

/-- State of `opto_detect_edge`: the `static bool in_peak` plus the DC
tracker state it drives through its call to `opto_update_dc_signal`. -/
structure OptoState where
  dc : DCState
  in_peak : Bool
  deriving Repr, DecidableEq

/-- Initial edge-detector state: `in_peak = false`, DC tracker zeroed. -/
def optoInit : OptoState := { dc := dcInit, in_peak := false }

/-- The AC residue `sample - dc` computed inside `opto_detect_edge`
(an exact `int16_t` subtraction: both operands are in 0..255). -/
def opto_ac (s : OptoState) (sample : Nat) : Int :=
  (sample : Int) - ((opto_update_dc_signal s.dc sample).2 : Int)

/-- `opto_detect_edge(sample)`: update the DC estimate, compute the AC
residue, then run the hysteresis machine: in Peak (`in_peak`) always
return false, leaving Peak when `ac < OPTO_THRESHOLD / 4` (= 7); in Idle
return true and enter Peak exactly when `ac > OPTO_THRESHOLD` (30). The
`rpm_out_set` / `rpm_out_clr` digital output writes are hardware effects
outside the model. -/
def opto_detect_edge (s : OptoState) (sample : Nat) : OptoState × Bool :=
  let dc1 := opto_update_dc_signal s.dc sample
  let ac : Int := (sample : Int) - (dc1.2 : Int)
  if s.in_peak then
    if ac < OPTO_THRESHOLD / 4 then
      ({ dc := dc1.1, in_peak := false }, false)
    else
      ({ dc := dc1.1, in_peak := true }, false)
  else
    if ac > OPTO_THRESHOLD then
      ({ dc := dc1.1, in_peak := true }, true)
    else
      ({ dc := dc1.1, in_peak := false }, false)

/-- Per-step trace of the edge detector over a sample sequence: each
entry pairs the state entering the step with the step's output. -/
def edgeTrace (s : OptoState) : List Nat → List (OptoState × Bool)
  | [] => []
  | x :: xs =>
      let r := opto_detect_edge s x
      (s, r.2) :: edgeTrace r.1 xs

lemma edgeTrace_length (s : OptoState) (l : List Nat) :
    (edgeTrace s l).length = l.length := by
  induction l generalizing s with
  | nil => rfl
  | cons x xs ih => simp [edgeTrace, ih]

lemma edgeTrace_get (s : OptoState) (l : List Nat) (i : Nat)
    (h : i < (edgeTrace s l).length) (h2 : i < l.length) :
    ((edgeTrace s l).get ⟨i, h⟩).2 =
      (opto_detect_edge ((edgeTrace s l).get ⟨i, h⟩).1 (l.get ⟨i, h2⟩)).2 := by
  induction l generalizing s i with
  | nil => simp at h2
  | cons x xs ih =>
      cases i with
      | zero => simp [edgeTrace]
      | succ j =>
          have hj2 : j < xs.length := by simpa using h2
          have hj : j < (edgeTrace (opto_detect_edge s x).1 xs).length := by
            rw [edgeTrace_length]
            exact hj2
          simpa [edgeTrace] using ih (opto_detect_edge s x).1 j hj hj2

lemma detect_true_iff (s : OptoState) (x : Nat) :
    (opto_detect_edge s x).2 = true ↔
      (s.in_peak = false ∧ OPTO_THRESHOLD < opto_ac s x) := by
  unfold opto_detect_edge opto_ac
  cases hp : s.in_peak
  · simp only [Bool.false_eq_true, if_false]
    split
    · simp_all
    · simp_all
  · simp only [if_true]
    split
    · simp_all
    · simp_all

lemma detect_enters_peak (s : OptoState) (x : Nat)
    (h : (opto_detect_edge s x).2 = true) :
    (opto_detect_edge s x).1.in_peak = true := by
  unfold opto_detect_edge at *
  cases hp : s.in_peak
  · simp only [hp, Bool.false_eq_true, if_false] at h ⊢
    split at h <;> simp_all
  · simp only [hp, if_true] at h ⊢
    split at h <;> simp_all

lemma detect_peak_step (s : OptoState) (x : Nat) (hp : s.in_peak = true) :
    (opto_detect_edge s x).2 = false ∧
    ((opto_detect_edge s x).1.in_peak = false ↔
      opto_ac s x < OPTO_THRESHOLD / 4) := by
  unfold opto_detect_edge opto_ac
  simp only [hp, if_true]
  split
  · simp_all
  · simp_all

/-- Claim C5: the detector returns true exactly on a step taken in Idle
with `ac > OPTO_THRESHOLD` (30), entering Peak at that step; in Peak it
always returns false and returns to Idle exactly when
`ac < OPTO_THRESHOLD / 4` (7); consequently along any run two reported
edges are always separated by a step entered in the Idle state. -/
theorem C5_hysteresis (s : OptoState) (x : Nat) (l : List Nat) (i j : Nat)
    (hi : i < (edgeTrace s l).length) (hj : j < (edgeTrace s l).length) :
    ((opto_detect_edge s x).2 = true ↔
      (s.in_peak = false ∧ OPTO_THRESHOLD < opto_ac s x)) ∧
    ((opto_detect_edge s x).2 = true →
      (opto_detect_edge s x).1.in_peak = true) ∧
    (s.in_peak = true → (opto_detect_edge s x).2 = false ∧
      ((opto_detect_edge s x).1.in_peak = false ↔
        opto_ac s x < OPTO_THRESHOLD / 4)) ∧
    (i < j → ((edgeTrace s l).get ⟨i, hi⟩).2 = true →
      ((edgeTrace s l).get ⟨j, hj⟩).2 = true →
      ∃ k, ∃ hk : k < (edgeTrace s l).length, i < k ∧ k ≤ j ∧
        ((edgeTrace s l).get ⟨k, hk⟩).1.in_peak = false) := by
  refine ⟨detect_true_iff s x, detect_enters_peak s x, detect_peak_step s x, ?_⟩
  intro hij _ h2
  refine ⟨j, hj, hij, Nat.le_refl j, ?_⟩
  have hjl : j < l.length := by
    rw [← edgeTrace_length s l]
    exact hj
  rw [edgeTrace_get s l j hj hjl] at h2
  exact ((detect_true_iff _ _).mp h2).1

/-- Witness for C5_hysteresis: over the samples [0, 255, 0, 255] from the
initial state the detector reports edges at steps 1 and 3 (the bias lags
at 127, so ac = 128 > 30; the intervening 0 gives ac = -85 < 7), and the
guaranteed intervening Idle entry exists. -/
theorem C5_hysteresis_witness :
    (1 : Nat) < 3 ∧
    ((edgeTrace optoInit [0, 255, 0, 255]).get ⟨1, by decide⟩).2 = true ∧
    ((edgeTrace optoInit [0, 255, 0, 255]).get ⟨3, by decide⟩).2 = true ∧
    ∃ k, ∃ hk : k < (edgeTrace optoInit [0, 255, 0, 255]).length,
      1 < k ∧ k ≤ 3 ∧
      ((edgeTrace optoInit [0, 255, 0, 255]).get ⟨k, hk⟩).1.in_peak = false :=
  ⟨by decide, by decide, by decide,
   (C5_hysteresis optoInit 42 [0, 255, 0, 255] 1 3 (by decide) (by decide)).2.2.2
     (by decide) (by decide) (by decide)⟩

end Ardubenchmark
